import Mathlib

/-!
# Verification of the trading-route optimizer (`src/lib/trading-calculator.ts`)

Shallow embedding of the offer-combination trading-route optimizer.

Modelling conventions:
* JavaScript numbers are modelled as exact rationals (`ℚ`); the source performs
  only `+ - * / min` and comparisons on them.
* JavaScript strings are modelled as `List Char`; `String.prototype.toLowerCase`
  is modelled by mapping `Char.toLower`, `String.prototype.includes` by
  `strIncludes` below.
* `Array.prototype.sort` is stable (ECMAScript 2019); it is modelled by a
  stable insertion sort `sortBy lt`, where `lt y x` holds exactly when the
  source comparator `cmp(y, x)` returns a negative number (i.e. `y` must be
  placed strictly before `x`); ties keep the original order, as in the source.
* `throw new Error(...)` is modelled by `Except.error` with one constructor
  per distinct error site.
-/

/-- One accepted payment rail of an offer (`PaymentMethod` in `types.ts`):
`payType` is mandatory, the other fields optional. -/
structure PaymentMethod where
  payType : List Char
  payBank : Option (List Char) := none
  paySubBank : Option (List Char) := none
  payAccount : Option (List Char) := none
  deriving DecidableEq, Repr

/-- Counterparty information (`PriceData.advertiser` in `types.ts`);
informational only, never read by the optimizer. -/
structure Advertiser where
  name : List Char := []
  rating : ℚ := 0
  orderCount : ℕ := 0
  completionRate : ℚ := 0
  deriving DecidableEq, Repr

/-- Trade direction (`"BUY" | "SELL"` in `types.ts`). -/
inductive TradeType where
  | BUY
  | SELL
  deriving DecidableEq, Repr

/-- One marketplace offer (`PriceData` in `types.ts`). -/
structure PriceData where
  price : ℚ
  amount : ℚ
  paymentMethods : List PaymentMethod
  advertiser : Advertiser := {}
  tradeType : TradeType
  deriving DecidableEq, Repr

/-- One candidate route (`TradingRoute` in `trading-calculator.ts`). -/
structure TradingRoute where
  offers : List PriceData
  totalAmount : ℚ
  totalCost : ℚ
  averagePrice : ℚ
  savings : ℚ
  efficiency : ℚ
  deriving DecidableEq, Repr

instance : Inhabited TradingRoute :=
  ⟨{ offers := [], totalAmount := 0, totalCost := 0, averagePrice := 0,
     savings := 0, efficiency := 0 }⟩

/-- The `summary` field of `TradingCalculatorResult`. -/
structure RouteSummary where
  totalOffers : ℕ
  averagePrice : ℚ
  totalCost : ℚ
  savings : ℚ
  efficiency : ℚ
  deriving DecidableEq, Repr

/-- `TradingCalculatorResult` in `trading-calculator.ts`. -/
structure TradingCalculatorResult where
  targetAmount : ℚ
  bestRoute : TradingRoute
  alternativeRoutes : List TradingRoute
  summary : RouteSummary
  deriving DecidableEq, Repr

/-- The three `throw new Error(...)` sites of `calculateBestTradingRoute`. -/
inductive CalcError where
  | noOffersAvailable
  | noOffersForBank (bankFilter : List Char)
  | noCombinationFound (targetAmount : ℚ)
  deriving DecidableEq, Repr

/-! ## Stable sort (model of `Array.prototype.sort`)

`insertBy lt x l` inserts `x` in front of the first element of `l` that is not
strictly before `x`; `sortBy` is the induced insertion sort.  For a consistent
comparator this computes exactly what the (stable, ECMAScript ≥ 2019)
`Array.prototype.sort` computes. -/

def insertBy (lt : α → α → Bool) (x : α) : List α → List α
  | [] => [x]
  | y :: ys => if lt y x then y :: insertBy lt x ys else x :: y :: ys

def sortBy (lt : α → α → Bool) : List α → List α
  | [] => []
  | x :: xs => insertBy lt x (sortBy lt xs)

/-! ## String helpers (models of `toLowerCase` / `includes`) -/

/-- Model of `String.prototype.toLowerCase` (ASCII case folding). -/
def toLowerStr (s : List Char) : List Char := s.map Char.toLower

/-- Model of `s.includes(sub)`: some (possibly empty) contiguous chunk of `s`
equals `sub`. -/
def strIncludes (s sub : List Char) : Bool :=
  match s with
  | [] => sub.isEmpty
  | c :: t => sub.isPrefixOf (c :: t) || strIncludes t sub

/-- Model of the default (lexicographic, code-unit) comparator of
`Array.prototype.sort` on strings: `strLt a b` iff `a < b`. -/
def strLt : List Char → List Char → Bool
  | [], [] => false
  | [], _ :: _ => true
  | _ :: _, [] => false
  | a :: as, b :: bs => if a < b then true else if b < a then false else strLt as bs

/-! ## The comparators of the source -/

/-- The offer comparator of `calculateBestTradingRoute` / `calculateRouteFromOffers`:
`offerLt a b` iff `cmp(a, b) < 0`, with
`cmp = (a, b) => a.tradeType === "BUY" ? a.price - b.price : b.price - a.price`. -/
def offerLt (a b : PriceData) : Bool :=
  match a.tradeType with
  | TradeType.BUY => decide (a.price < b.price)
  | TradeType.SELL => decide (b.price < a.price)

/-- The route comparator `(a, b) => b.efficiency - a.efficiency` (descending):
`effGt a b` iff `cmp(a, b) < 0`. -/
def effGt (a b : TradingRoute) : Bool :=
  decide (b.efficiency < a.efficiency)

/-! ## Bank filter (`trading-calculator.ts` lines 44–57) -/

/-- One offer passes the bank filter when some payment method's `payBank` or
`payType` contains the query, case-insensitively (lines 46–52). -/
def matchesBank (bankFilter : List Char) (offer : PriceData) : Bool :=
  offer.paymentMethods.any fun m =>
    (match m.payBank with
     | some b => strIncludes (toLowerStr b) (toLowerStr bankFilter)
     | none => false)
    || strIncludes (toLowerStr m.payType) (toLowerStr bankFilter)

/-- Lines 44–57 of `calculateBestTradingRoute`: `bankFilter` is an optional
parameter and the source guards on its JavaScript truthiness, so an absent
*or empty* query leaves the catalog unchanged; a non-empty query filters, and
an empty filter result throws. -/
def applyBankFilter (offers : List PriceData) : Option (List Char) → Except CalcError (List PriceData)
  | none => Except.ok offers
  | some q =>
    if q = [] then Except.ok offers
    else if offers.filter (matchesBank q) = [] then Except.error (CalcError.noOffersForBank q)
    else Except.ok (offers.filter (matchesBank q))

/-! ## Greedy allocation (`calculateRouteFromOffers` lines 171–189) -/

/-- The consumption loop: walks the sorted offers, at each consuming
`min(remainingAmount, offer.amount)` (pushing a copy of the offer with its
`amount` overridden by the consumed amount) until the remainder is `≤ 0`.
Returns `(usedOffers, totalCost, remainingAmount)`. -/
def greedyConsume : List PriceData → ℚ → List PriceData × ℚ × ℚ
  | [], remaining => ([], 0, remaining)
  | offer :: rest, remaining =>
    if remaining ≤ 0 then ([], 0, remaining)
    else
      ({ offer with amount := min remaining offer.amount } ::
         (greedyConsume rest (remaining - min remaining offer.amount)).1,
       min remaining offer.amount * offer.price +
         (greedyConsume rest (remaining - min remaining offer.amount)).2.1,
       (greedyConsume rest (remaining - min remaining offer.amount)).2.2)

/-- The route record built at lines 196–209, from the sorted combination, the
target amount and the result of the greedy loop. -/
def mkRoute (sortedOffers : List PriceData) (targetAmount : ℚ)
    (g : List PriceData × ℚ × ℚ) : TradingRoute :=
  { offers := g.1
    totalAmount := targetAmount
    totalCost := g.2.1
    averagePrice := g.2.1 / targetAmount
    savings := (((sortedOffers.getLast?).map PriceData.price).getD 0 - g.2.1 / targetAmount) * targetAmount
    efficiency := (((sortedOffers.head?).map PriceData.price).getD 0 / (g.2.1 / targetAmount)) * 100 }

/-- `calculateRouteFromOffers` (lines 158–210): sort the combination by the
best-price comparator, run the greedy loop, return `null` when the target
could not be filled (`remainingAmount > 0`), else the scored route.  The
`worstPrice`/`optimalPrice` used for `savings`/`efficiency` are the last/first
price of the combination's own sorted offer list. -/
def calculateRouteFromOffers (offers : List PriceData) (targetAmount : ℚ) : Option TradingRoute :=
  if 0 < (greedyConsume (sortBy offerLt offers) targetAmount).2.2 then none
  else some (mkRoute (sortBy offerLt offers) targetAmount
    (greedyConsume (sortBy offerLt offers) targetAmount))

/-! ## Combination generation (lines 104–153) -/

/-- `generateCombinations` (lines 132–153): all size-`size` combinations of
`offers`, in the source's enumeration order.  The source's index loop
`for (i = 0; i <= offers.length - size; i++)` prepending `offers[i]` to each
combination of `offers.slice(i+1)` is written as structural recursion: the
combinations containing the head come first, then those avoiding it (loop
iterations whose tail is shorter than `size` contribute nothing, exactly like
the source's loop bound).  The source never calls this with `size = 0`. -/
def generateCombinations : List PriceData → ℕ → List (List PriceData)
  | _, 0 => []
  | offers, 1 => offers.map fun offer => [offer]
  | [], _ + 2 => []
  | offer :: rest, size + 2 =>
    ((generateCombinations rest (size + 1)).map fun sub => offer :: sub) ++
      generateCombinations rest (size + 2)

/-- The sizes `1, 2, …, n` tried by `findOfferCombinations`'s outer loop. -/
def sizesFrom (start : ℕ) : ℕ → List ℕ
  | 0 => []
  | n + 1 => start :: sizesFrom (start + 1) n

/-- The body of `findOfferCombinations`'s loop over sizes: for each size,
keep the routes of the valid combinations, in enumeration order. -/
def combosForSizes (offers : List PriceData) (targetAmount : ℚ) : List ℕ → List TradingRoute
  | [] => []
  | size :: rest =>
    ((generateCombinations offers size).filterMap fun c => calculateRouteFromOffers c targetAmount)
      ++ combosForSizes offers targetAmount rest

/-- `findOfferCombinations` (lines 107–127): try sizes `1 … min(maxOffers, n)`. -/
def findOfferCombinations (offers : List PriceData) (targetAmount : ℚ) (maxOffers : ℕ) :
    List TradingRoute :=
  combosForSizes offers targetAmount (sizesFrom 1 (min maxOffers offers.length))

/-! ## Main entry point (lines 33–102) -/

/-- The result record assembled at lines 86–101 from the filtered catalog, the
target amount and the efficiency-ranked route list: best route, up to three
alternatives (`slice(1, 4)`), and a summary whose savings are computed from the
*catalog-wide* worst price. -/
def mkResult (filteredOffers : List PriceData) (targetAmount : ℚ)
    (ranked : List TradingRoute) : TradingCalculatorResult :=
  { targetAmount := targetAmount
    bestRoute := ranked.headD default
    alternativeRoutes := (ranked.drop 1).take 3
    summary :=
      { totalOffers := (ranked.headD default).offers.length
        averagePrice := (ranked.headD default).averagePrice
        totalCost := (ranked.headD default).totalCost
        savings := ((((sortBy offerLt filteredOffers).getLast?).map PriceData.price).getD 0
            - (ranked.headD default).averagePrice) * targetAmount
        efficiency := (ranked.headD default).efficiency } }

/-- `calculateBestTradingRoute` (lines 33–102). -/
def calculateBestTradingRoute (offers : List PriceData) (targetAmount : ℚ)
    (maxOffers : ℕ := 5) (bankFilter : Option (List Char) := none) :
    Except CalcError TradingCalculatorResult :=
  if offers = [] then Except.error CalcError.noOffersAvailable
  else
    match applyBankFilter offers bankFilter with
    | Except.error e => Except.error e
    | Except.ok filteredOffers =>
      if (findOfferCombinations (sortBy offerLt filteredOffers) targetAmount maxOffers).isEmpty then
        Except.error (CalcError.noCombinationFound targetAmount)
      else
        Except.ok (mkResult filteredOffers targetAmount
          (sortBy effGt (findOfferCombinations (sortBy offerLt filteredOffers) targetAmount maxOffers)))

/-! ## Bank lister (`getAvailableBanks`, lines 215–230) -/

/-- The identifiers one payment method adds to the `banks` set: its `payBank`
when present and truthy (non-empty), and its `payType` when truthy. -/
def methodBanks (m : PaymentMethod) : List (List Char) :=
  (match m.payBank with
   | some b => if b = [] then [] else [b]
   | none => []) ++ (if m.payType = [] then [] else [m.payType])

/-- All identifiers added over a method list, in insertion order. -/
def collectBanksMethods : List PaymentMethod → List (List Char)
  | [] => []
  | m :: rest => methodBanks m ++ collectBanksMethods rest

/-- All identifiers added over the whole catalog, in insertion order. -/
def collectBanks : List PriceData → List (List Char)
  | [] => []
  | offer :: rest => collectBanksMethods offer.paymentMethods ++ collectBanks rest

/-- `getAvailableBanks` (lines 215–230): deduplicate (the `Set`) and sort with
the default string comparator. -/
def getAvailableBanks (offers : List PriceData) : List (List Char) :=
  sortBy strLt (collectBanks offers).dedup

/-- Modelled from the spec (§4.3), for comparison with `getAvailableBanks`:
each payment method contributes its bank name *if present, else* its rail
type. -/
def getAvailableBanksSpec (offers : List PriceData) : List (List Char) :=
  sortBy strLt (offers.foldr (fun offer acc =>
    offer.paymentMethods.foldr (fun m acc2 => (m.payBank.getD m.payType) :: acc2) acc) []).dedup

/-! ## Concrete catalogs used by witnesses and counterexamples -/

/-- A cheap offer with small availability. -/
def cexOfferA : PriceData :=
  { price := 10, amount := 5, paymentMethods := [], tradeType := TradeType.BUY }

/-- An expensive offer with large availability. -/
def cexOfferB : PriceData :=
  { price := 20, amount := 100, paymentMethods := [], tradeType := TradeType.BUY }

/-- A cheap offer with large availability. -/
def cexOfferC : PriceData :=
  { price := 10, amount := 100, paymentMethods := [], tradeType := TradeType.BUY }

/-- A single plentiful offer. -/
def wOffer : PriceData :=
  { price := 36, amount := 500, paymentMethods := [], tradeType := TradeType.BUY }

/-- The best route of the one-offer catalog `[wOffer]` at target 50. -/
def wRoute : TradingRoute :=
  { offers := [{ wOffer with amount := 50 }], totalAmount := 50, totalCost := 50 * 36,
    averagePrice := 36, savings := 0, efficiency := 100 }

/-- The result of the optimizer on the one-offer catalog `[wOffer]` at target 50. -/
def wRes : TradingCalculatorResult :=
  (calculateBestTradingRoute [wOffer] 50 5 none).toOption.getD
    { targetAmount := 0, bestRoute := default, alternativeRoutes := [],
      summary := { totalOffers := 0, averagePrice := 0, totalCost := 0, savings := 0,
                   efficiency := 0 } }

/-- A payment method carrying both a bank name and a rail type. -/
def wMethod : PaymentMethod :=
  { payType := ['B', 'a', 'n', 'k'], payBank := some ['Z', 'e', 'l', 'l', 'e'] }

/-- An offer exposing `wMethod`. -/
def wBankOffer : PriceData :=
  { price := 36, amount := 500, paymentMethods := [wMethod], tradeType := TradeType.BUY }

/-! # Lemma layer -/

/-! ## Stable sort lemmas -/

theorem perm_insertBy (lt : α → α → Bool) (x : α) :
    ∀ l : List α, List.Perm (insertBy lt x l) (x :: l)
  | [] => List.Perm.refl _
  | y :: ys => by
    unfold insertBy
    split
    · exact (List.Perm.cons y (perm_insertBy lt x ys)).trans (List.Perm.swap x y ys)
    · exact List.Perm.refl _

theorem perm_sortBy (lt : α → α → Bool) : ∀ l : List α, List.Perm (sortBy lt l) l
  | [] => List.Perm.refl _
  | x :: xs => by
    unfold sortBy
    exact (perm_insertBy lt x (sortBy lt xs)).trans (List.Perm.cons x (perm_sortBy lt xs))

theorem mem_sortBy {lt : α → α → Bool} {l : List α} {a : α} :
    a ∈ sortBy lt l ↔ a ∈ l :=
  (perm_sortBy lt l).mem_iff

theorem sortBy_eq_nil_iff {lt : α → α → Bool} {l : List α} :
    sortBy lt l = [] ↔ l = [] := by
  constructor
  · intro h
    have h2 := perm_sortBy lt l
    rw [h] at h2
    exact (List.Perm.nil_eq h2).symm
  · intro h
    subst h
    rfl

theorem pairwise_insertBy {lt : α → α → Bool} {x : α} :
    ∀ {l : List α}, l.Pairwise (fun a b => lt b a = false) →
      (∀ b ∈ l, lt b x = true → lt x b = false) →
      (∀ b ∈ l, ∀ c ∈ l, lt b x = false → lt c b = false → lt c x = false) →
      (insertBy lt x l).Pairwise (fun a b => lt b a = false)
  | [], _, _, _ => List.pairwise_singleton _ x
  | y :: ys, hl, hasym, htr => by
    rw [List.pairwise_cons] at hl
    unfold insertBy
    split
    · rename_i hyx
      rw [List.pairwise_cons]
      refine ⟨?_, ?_⟩
      · intro z hz
        rcases List.mem_cons.mp ((perm_insertBy lt x ys).mem_iff.mp hz) with hz' | hz'
        · exact hz' ▸ hasym y (List.mem_cons_self y ys) hyx
        · exact hl.1 z hz'
      · exact pairwise_insertBy hl.2
          (fun b hb => hasym b (List.mem_cons_of_mem y hb))
          (fun b hb c hc => htr b (List.mem_cons_of_mem y hb) c (List.mem_cons_of_mem y hc))
    · rename_i hyx
      rw [Bool.not_eq_true] at hyx
      rw [List.pairwise_cons]
      refine ⟨?_, List.pairwise_cons.mpr hl⟩
      intro z hz
      rcases List.mem_cons.mp hz with hz' | hz'
      · exact hz' ▸ hyx
      · exact htr y (List.mem_cons_self y ys) z (List.mem_cons_of_mem y hz') hyx (hl.1 z hz')

theorem pairwise_sortBy {lt : α → α → Bool} :
    ∀ {l : List α}, (∀ a ∈ l, ∀ b ∈ l, lt a b = true → lt b a = false) →
      (∀ a ∈ l, ∀ b ∈ l, ∀ c ∈ l, lt b a = false → lt c b = false → lt c a = false) →
      (sortBy lt l).Pairwise (fun a b => lt b a = false)
  | [], _, _ => List.Pairwise.nil
  | x :: xs, hasym, htr => by
    unfold sortBy
    refine pairwise_insertBy ?_ ?_ ?_
    · exact pairwise_sortBy
        (fun a ha b hb => hasym a (List.mem_cons_of_mem x ha) b (List.mem_cons_of_mem x hb))
        (fun a ha b hb c hc => htr a (List.mem_cons_of_mem x ha)
          b (List.mem_cons_of_mem x hb) c (List.mem_cons_of_mem x hc))
    · intro b hb
      exact hasym b (List.mem_cons_of_mem x (mem_sortBy.mp hb)) x (List.mem_cons_self x xs)
    · intro b hb c hc
      exact htr x (List.mem_cons_self x xs) b (List.mem_cons_of_mem x (mem_sortBy.mp hb))
        c (List.mem_cons_of_mem x (mem_sortBy.mp hc))

/-- Stability at the head: if no element of `xs` must be placed strictly before
`x`, the stable sort keeps the first element `x` first. -/
theorem sortBy_cons_of_min {lt : α → α → Bool} {x : α} {xs : List α}
    (h : ∀ b ∈ xs, lt b x = false) : ∃ m, sortBy lt (x :: xs) = x :: m := by
  unfold sortBy
  rcases hm : sortBy lt xs with _ | ⟨y, ys⟩
  · exact ⟨[], rfl⟩
  · have hy : y ∈ sortBy lt xs := by rw [hm]; exact List.mem_cons_self y ys
    have hyx : lt y x = false := h y (mem_sortBy.mp hy)
    refine ⟨y :: ys, ?_⟩
    unfold insertBy
    rw [hyx]
    simp

/-! ## Greedy loop lemmas -/

theorem greedyConsume_rem_nonneg :
    ∀ (l : List PriceData) (r : ℚ), 0 ≤ r → 0 ≤ (greedyConsume l r).2.2
  | [], r, hr => hr
  | offer :: rest, r, hr => by
    unfold greedyConsume
    split
    · exact hr
    · exact greedyConsume_rem_nonneg rest (r - min r offer.amount)
        (by simp only [sub_nonneg]; exact min_le_left r offer.amount)

/-- The consumed amounts account exactly for the drop of the remainder. -/
theorem greedyConsume_sum :
    ∀ (l : List PriceData) (r : ℚ),
      (((greedyConsume l r).1.map PriceData.amount).sum) = r - (greedyConsume l r).2.2
  | [], r => by simp [greedyConsume]
  | offer :: rest, r => by
    unfold greedyConsume
    split
    · simp
    · simp only [List.map_cons, List.sum_cons]
      rw [greedyConsume_sum rest (r - min r offer.amount)]
      ring

/-- The accumulated cost is the sum of consumed amount × price over the copies. -/
theorem greedyConsume_cost :
    ∀ (l : List PriceData) (r : ℚ),
      (greedyConsume l r).2.1 = ((greedyConsume l r).1.map fun u => u.amount * u.price).sum
  | [], r => by simp [greedyConsume]
  | offer :: rest, r => by
    unfold greedyConsume
    split
    · simp
    · simp only [List.map_cons, List.sum_cons]
      rw [greedyConsume_cost rest (r - min r offer.amount)]

/-- Every pushed offer is a copy of a source offer with only `amount`
overridden, by at most the source offer's amount. -/
theorem greedyConsume_used :
    ∀ (l : List PriceData) (r : ℚ), ∀ u ∈ (greedyConsume l r).1,
      ∃ o ∈ l, u = { o with amount := u.amount } ∧ u.amount ≤ o.amount
  | [], r, u, hu => by simp [greedyConsume] at hu
  | offer :: rest, r, u, hu => by
    unfold greedyConsume at hu
    split at hu
    · simp at hu
    · rcases List.mem_cons.mp hu with hu' | hu'
      · refine ⟨offer, List.mem_cons_self offer rest, ?_, ?_⟩
        · rw [hu']
        · rw [hu']
          exact min_le_right r offer.amount
      · rcases greedyConsume_used rest (r - min r offer.amount) u hu' with ⟨o, ho, hco, hle⟩
        exact ⟨o, List.mem_cons_of_mem offer ho, hco, hle⟩

/-- With nonnegative availabilities the remainder cannot drop below
`r - (total availability)`. -/
theorem greedyConsume_rem_ge :
    ∀ (l : List PriceData) (r : ℚ), (∀ o ∈ l, 0 ≤ o.amount) →
      r - ((l.map PriceData.amount).sum) ≤ (greedyConsume l r).2.2
  | [], r, _ => by simp [greedyConsume]
  | offer :: rest, r, ha => by
    unfold greedyConsume
    split
    · rename_i hr
      have h1 : 0 ≤ ((rest.map PriceData.amount).sum) :=
        List.sum_nonneg (by
          intro q hq
          rcases List.mem_map.mp hq with ⟨o, ho, rfl⟩
          exact ha o (List.mem_cons_of_mem offer ho))
      have h2 : 0 ≤ offer.amount := ha offer (List.mem_cons_self offer rest)
      simp only [List.map_cons, List.sum_cons]
      linarith
    · have hrec := greedyConsume_rem_ge rest (r - min r offer.amount)
        (fun o ho => ha o (List.mem_cons_of_mem offer ho))
      have hmin : min r offer.amount ≤ offer.amount := min_le_right r offer.amount
      simp only [List.map_cons, List.sum_cons]
      linarith

/-- With a positive remainder the first sorted offer is consumed first. -/
theorem greedyConsume_head (offer : PriceData) (rest : List PriceData) (r : ℚ) (hr : 0 < r) :
    (greedyConsume (offer :: rest) r).1 =
      { offer with amount := min r offer.amount } ::
        (greedyConsume rest (r - min r offer.amount)).1 := by
  have h : ¬ r ≤ 0 := by linarith
  rw [greedyConsume, if_neg h]

/-- With nonnegative target and availabilities every consumed amount is
nonnegative. -/
theorem greedyConsume_amount_nonneg :
    ∀ (l : List PriceData) (r : ℚ), 0 ≤ r → (∀ o ∈ l, 0 ≤ o.amount) →
      ∀ u ∈ (greedyConsume l r).1, 0 ≤ u.amount
  | [], r, _, _, u, hu => by simp [greedyConsume] at hu
  | offer :: rest, r, hr, ha, u, hu => by
    unfold greedyConsume at hu
    split at hu
    · simp at hu
    · rcases List.mem_cons.mp hu with hu' | hu'
      · rw [hu']
        exact le_min hr (ha offer (List.mem_cons_self offer rest))
      · exact greedyConsume_amount_nonneg rest (r - min r offer.amount)
          (by simp only [sub_nonneg]; exact min_le_left r offer.amount)
          (fun o ho => ha o (List.mem_cons_of_mem offer ho)) u hu'

/-! ## Route construction lemmas -/

/-- Inversion of `calculateRouteFromOffers`: a returned route is the record of
lines 202–209, with a non-positive final remainder. -/
theorem calculateRouteFromOffers_inv {c : List PriceData} {t : ℚ} {r : TradingRoute}
    (hr : calculateRouteFromOffers c t = some r) :
    (greedyConsume (sortBy offerLt c) t).2.2 ≤ 0 ∧
    r = mkRoute (sortBy offerLt c) t (greedyConsume (sortBy offerLt c) t) := by
  unfold calculateRouteFromOffers at hr
  split at hr
  · exact absurd hr (by simp)
  · rename_i hle
    exact ⟨le_of_not_lt hle, (Option.some.injEq _ _).mp hr.symm⟩

/-- With a nonnegative target, a returned route fills it exactly. -/
theorem calculateRouteFromOffers_exact_fill {c : List PriceData} {t : ℚ} {r : TradingRoute}
    (hr : calculateRouteFromOffers c t = some r) (ht : 0 ≤ t) :
    ((r.offers.map PriceData.amount).sum) = t ∧ r.totalAmount = t := by
  rcases calculateRouteFromOffers_inv hr with ⟨hle, hrec⟩
  have hge : 0 ≤ (greedyConsume (sortBy offerLt c) t).2.2 :=
    greedyConsume_rem_nonneg _ t ht
  have hzero : (greedyConsume (sortBy offerLt c) t).2.2 = 0 := le_antisymm hle hge
  subst hrec
  refine ⟨?_, rfl⟩
  show (((greedyConsume (sortBy offerLt c) t).1.map PriceData.amount).sum) = t
  rw [greedyConsume_sum, hzero, sub_zero]

/-- A combination whose total availability is below the target is discarded. -/
theorem calculateRouteFromOffers_eq_none_of_sum_lt {c : List PriceData} {t : ℚ}
    (ha : ∀ o ∈ c, 0 ≤ o.amount) (hsum : ((c.map PriceData.amount).sum) < t) :
    calculateRouteFromOffers c t = none := by
  have hperm : List.Perm ((sortBy offerLt c).map PriceData.amount) (c.map PriceData.amount) :=
    (perm_sortBy offerLt c).map PriceData.amount
  have hsum' : (((sortBy offerLt c).map PriceData.amount).sum) = ((c.map PriceData.amount).sum) :=
    hperm.sum_eq
  have hrem : 0 < (greedyConsume (sortBy offerLt c) t).2.2 := by
    have := greedyConsume_rem_ge (sortBy offerLt c) t (fun o ho => ha o (mem_sortBy.mp ho))
    rw [hsum'] at this
    linarith
  unfold calculateRouteFromOffers
  rw [if_pos hrem]

/-! ## Combination generation lemmas -/

theorem mem_generateCombinations_sublist :
    ∀ (offers : List PriceData) (size : ℕ) (c : List PriceData),
      c ∈ generateCombinations offers size → List.Sublist c offers := by
  intro offers
  induction offers with
  | nil =>
    intro size c hc
    match size with
    | 0 => simp [generateCombinations] at hc
    | 1 => simp [generateCombinations] at hc
    | n + 2 => simp [generateCombinations] at hc
  | cons o rest ih =>
    intro size c hc
    match size with
    | 0 => simp [generateCombinations] at hc
    | 1 =>
      simp only [generateCombinations, List.mem_map] at hc
      rcases hc with ⟨x, hx, rfl⟩
      exact List.singleton_sublist.mpr hx
    | n + 2 =>
      simp only [generateCombinations, List.mem_append, List.mem_map] at hc
      rcases hc with ⟨sub, hsub, rfl⟩ | hc
      · exact List.Sublist.cons₂ o (ih (n + 1) sub hsub)
      · exact List.Sublist.cons o (ih (n + 2) c hc)

theorem mem_generateCombinations_ne_nil :
    ∀ (offers : List PriceData) (size : ℕ) (c : List PriceData),
      c ∈ generateCombinations offers size → c ≠ [] := by
  intro offers
  induction offers with
  | nil =>
    intro size c hc
    match size with
    | 0 => simp [generateCombinations] at hc
    | 1 => simp [generateCombinations] at hc
    | n + 2 => simp [generateCombinations] at hc
  | cons o rest ih =>
    intro size c hc
    match size with
    | 0 => simp [generateCombinations] at hc
    | 1 =>
      simp only [generateCombinations, List.mem_map] at hc
      rcases hc with ⟨x, _, rfl⟩
      simp
    | n + 2 =>
      simp only [generateCombinations, List.mem_append, List.mem_map] at hc
      rcases hc with ⟨sub, _, rfl⟩ | hc
      · simp
      · exact ih (n + 2) c hc

/-- Every route in the combination list comes from a nonempty sub-combination
of the (sorted) catalog. -/
theorem mem_findOfferCombinations {offers : List PriceData} {t : ℚ} {maxOffers : ℕ}
    {r : TradingRoute} (hr : r ∈ findOfferCombinations offers t maxOffers) :
    ∃ c, c ≠ [] ∧ List.Sublist c offers ∧ calculateRouteFromOffers c t = some r := by
  unfold findOfferCombinations at hr
  generalize sizesFrom 1 (min maxOffers offers.length) = sizes at hr
  induction sizes with
  | nil => simp [combosForSizes] at hr
  | cons s rest ih =>
    unfold combosForSizes at hr
    rcases List.mem_append.mp hr with hr' | hr'
    · rcases List.mem_filterMap.mp hr' with ⟨c, hc, hcr⟩
      exact ⟨c, mem_generateCombinations_ne_nil offers s c hc,
        mem_generateCombinations_sublist offers s c hc, hcr⟩
    · exact ih hr'

/-! ## Efficiency bounds -/

/-- On an all-BUY list the offer sort is by nondecreasing price. -/
theorem sortBy_offerLt_pairwise_price {l : List PriceData}
    (hBUY : ∀ o ∈ l, o.tradeType = TradeType.BUY) :
    (sortBy offerLt l).Pairwise fun a b => a.price ≤ b.price := by
  have hpair : (sortBy offerLt l).Pairwise fun a b => offerLt b a = false := by
    refine pairwise_sortBy ?_ ?_
    · intro a ha b _ hab
      rw [offerLt, hBUY a ha] at hab
      rw [offerLt, hBUY b (by assumption)]
      simp only [decide_eq_true_eq] at hab
      simp only [decide_eq_false_iff_not]
      exact lt_asymm hab
    · intro a _ b hb c hc hba hcb
      rw [offerLt, hBUY b hb] at hba
      rw [offerLt, hBUY c hc] at hcb
      rw [offerLt, hBUY c hc]
      simp only [decide_eq_false_iff_not, not_lt] at hba hcb ⊢
      linarith
  refine List.Pairwise.imp_of_mem ?_ hpair
  intro a b ha _ hab
  rw [offerLt, hBUY b (mem_sortBy.mp (by assumption))] at hab
  simp only [decide_eq_false_iff_not, not_lt] at hab
  exact hab

/-- Cost lower bound: amounts at least `p` each contribute at least
`p × amount`. -/
theorem sum_amount_mul_price_ge (p : ℚ) :
    ∀ l : List PriceData, (∀ u ∈ l, p ≤ u.price) → (∀ u ∈ l, 0 ≤ u.amount) →
      p * ((l.map PriceData.amount).sum) ≤ ((l.map fun u => u.amount * u.price).sum)
  | [], _, _ => by simp
  | u :: rest, hp, ha => by
    simp only [List.map_cons, List.sum_cons]
    have h1 := sum_amount_mul_price_ge p rest
      (fun v hv => hp v (List.mem_cons_of_mem u hv))
      (fun v hv => ha v (List.mem_cons_of_mem u hv))
    have hup : p ≤ u.price := hp u (List.mem_cons_self u rest)
    have hua : 0 ≤ u.amount := ha u (List.mem_cons_self u rest)
    have h2 : p * u.amount ≤ u.amount * u.price := by nlinarith
    rw [mul_add]
    linarith

/-- Bounds on a route returned for an all-BUY combination with positive prices:
the first sorted offer's price is positive, bounds the average price from
below, and is the reference price of the stored efficiency; the head of the
used-offer list is the first sorted offer with its consumed amount. -/
theorem calculateRouteFromOffers_bounds {c : List PriceData} {t : ℚ} {r : TradingRoute}
    {s0 : PriceData} {srest : List PriceData}
    (hr : calculateRouteFromOffers c t = some r)
    (hsort : sortBy offerLt c = s0 :: srest)
    (ht : 0 < t)
    (hBUY : ∀ o ∈ c, o.tradeType = TradeType.BUY)
    (hp : ∀ o ∈ c, 0 < o.price)
    (ha : ∀ o ∈ c, 0 ≤ o.amount) :
    0 < s0.price ∧ s0.price ≤ r.averagePrice ∧
    r.efficiency = s0.price / r.averagePrice * 100 ∧
    r.offers.head? = some { s0 with amount := min t s0.amount } := by
  have hs0mem : s0 ∈ c := mem_sortBy.mp (by rw [hsort]; exact List.mem_cons_self s0 srest)
  have hp0 : 0 < s0.price := hp s0 hs0mem
  rcases calculateRouteFromOffers_inv hr with ⟨hle, hrec⟩
  have hzero : (greedyConsume (sortBy offerLt c) t).2.2 = 0 :=
    le_antisymm hle (greedyConsume_rem_nonneg _ t ht.le)
  have hfill : (((greedyConsume (sortBy offerLt c) t).1.map PriceData.amount).sum) = t := by
    rw [greedyConsume_sum, hzero, sub_zero]
  have hsortedBUY : ∀ o ∈ sortBy offerLt c, o.tradeType = TradeType.BUY :=
    fun o ho => hBUY o (mem_sortBy.mp ho)
  have hsorted_price : ∀ o ∈ sortBy offerLt c, s0.price ≤ o.price := by
    intro o ho
    rw [hsort] at ho
    rcases List.mem_cons.mp ho with rfl | ho'
    · exact le_refl _
    · have hpair := sortBy_offerLt_pairwise_price hBUY
      rw [hsort] at hpair
      exact (List.pairwise_cons.mp hpair).1 o ho'
  have hused_price : ∀ u ∈ (greedyConsume (sortBy offerLt c) t).1, s0.price ≤ u.price := by
    intro u hu
    rcases greedyConsume_used _ t u hu with ⟨o, ho, hco, _⟩
    have : u.price = o.price := by rw [hco]
    rw [this]
    exact hsorted_price o ho
  have hused_amt : ∀ u ∈ (greedyConsume (sortBy offerLt c) t).1, 0 ≤ u.amount :=
    greedyConsume_amount_nonneg _ t ht.le (fun o ho => ha o (mem_sortBy.mp ho))
  have hcost : s0.price * t ≤ (greedyConsume (sortBy offerLt c) t).2.1 := by
    rw [greedyConsume_cost]
    calc s0.price * t
        = s0.price * (((greedyConsume (sortBy offerLt c) t).1.map PriceData.amount).sum) := by
          rw [hfill]
      _ ≤ _ := sum_amount_mul_price_ge s0.price _ hused_price hused_amt
  have havg : s0.price ≤ (greedyConsume (sortBy offerLt c) t).2.1 / t := by
    rw [le_div_iff₀ ht]
    exact hcost
  refine ⟨hp0, ?_, ?_, ?_⟩
  · rw [hrec]
    exact havg
  · rw [hrec]
    show _ = s0.price / _ * 100
    rw [mkRoute, hsort]
    simp
  · rw [hrec]
    show (greedyConsume (sortBy offerLt c) t).1.head? = _
    rw [hsort, greedyConsume_head s0 srest t ht]
    rfl

/-- Every returned route on an all-BUY catalog has efficiency at most 100%. -/
theorem calculateRouteFromOffers_eff_le {c : List PriceData} {t : ℚ} {r : TradingRoute}
    (hr : calculateRouteFromOffers c t = some r)
    (ht : 0 < t)
    (hBUY : ∀ o ∈ c, o.tradeType = TradeType.BUY)
    (hp : ∀ o ∈ c, 0 < o.price)
    (ha : ∀ o ∈ c, 0 ≤ o.amount) :
    r.efficiency ≤ 100 := by
  rcases hs : sortBy offerLt c with _ | ⟨s0, srest⟩
  · have hc : c = [] := sortBy_eq_nil_iff.mp hs
    subst hc
    have : calculateRouteFromOffers [] t = none := by
      unfold calculateRouteFromOffers
      rw [if_pos]
      show 0 < (greedyConsume (sortBy offerLt []) t).2.2
      show 0 < t
      exact ht
    rw [this] at hr
    exact absurd hr (by simp)
  · rcases calculateRouteFromOffers_bounds hr hs ht hBUY hp ha with ⟨hp0, havg, heff, _⟩
    rw [heff]
    have havg0 : 0 < r.averagePrice := lt_of_lt_of_le hp0 havg
    have : s0.price / r.averagePrice ≤ 1 := (div_le_one havg0).mpr havg
    linarith

/-- A single offer with enough availability yields, for a positive target and
price, the full-fill route at 100% efficiency. -/
theorem calculateRouteFromOffers_single {o : PriceData} {t : ℚ}
    (ht : 0 < t) (hp : 0 < o.price) (hamt : t ≤ o.amount) :
    calculateRouteFromOffers [o] t =
      some { offers := [{ o with amount := t }], totalAmount := t,
             totalCost := t * o.price, averagePrice := o.price,
             savings := 0, efficiency := 100 } := by
  have hsort : sortBy offerLt [o] = [o] := rfl
  have hmin : min t o.amount = t := min_eq_left hamt
  have hg : greedyConsume [o] t = ([{ o with amount := t }], t * o.price, 0) := by
    rw [greedyConsume, if_neg (by linarith)]
    rw [hmin]
    simp [greedyConsume]
  unfold calculateRouteFromOffers
  rw [hsort, hg]
  rw [if_neg (by norm_num)]
  have htne : t ≠ 0 := ne_of_gt ht
  have hpne : o.price ≠ 0 := ne_of_gt hp
  congr 1
  rw [mkRoute]
  simp only []
  congr 1
  · field_simp
  · field_simp
  · rw [mul_comm t o.price, mul_div_assoc, div_self htne, mul_one]
    field_simp

/-- A list can be split as head-plus-tail once nonempty. -/
theorem headD_cons_tail {l : List α} [Inhabited α] (h : l ≠ []) :
    l = l.headD default :: l.tail := by
  cases l with
  | nil => exact absurd rfl h
  | cons x xs => rfl

/-- Decomposition of a successful `calculateBestTradingRoute` call: the
catalog is nonempty, the bank filter succeeded, and the result is assembled
from the efficiency-ranked nonempty combination list: the ranked head is the
best route, the next three are the alternatives, and the summary savings are
taken against the sorted filtered catalog's last (worst) price. -/
theorem calculateBestTradingRoute_ok_inv {offers : List PriceData} {t : ℚ} {maxOffers : ℕ}
    {bf : Option (List Char)} {res : TradingCalculatorResult}
    (h : calculateBestTradingRoute offers t maxOffers bf = Except.ok res) :
    offers ≠ [] ∧
    ∃ filteredOffers rest,
      applyBankFilter offers bf = Except.ok filteredOffers ∧
      sortBy effGt (findOfferCombinations (sortBy offerLt filteredOffers) t maxOffers) =
        res.bestRoute :: rest ∧
      res.alternativeRoutes = rest.take 3 ∧
      res.targetAmount = t ∧
      res.summary.savings =
        ((((sortBy offerLt filteredOffers).getLast?).map PriceData.price).getD 0
          - res.bestRoute.averagePrice) * t ∧
      res.summary.efficiency = res.bestRoute.efficiency ∧
      res.summary.averagePrice = res.bestRoute.averagePrice := by
  unfold calculateBestTradingRoute at h
  split at h
  · exact absurd h (by simp)
  · rename_i hne
    refine ⟨hne, ?_⟩
    split at h
    · exact absurd h (by simp)
    · rename_i filteredOffers heq
      split at h
      · exact absurd h (by simp)
      · rename_i hcombos
        have hok : mkResult filteredOffers t
            (sortBy effGt (findOfferCombinations (sortBy offerLt filteredOffers) t maxOffers))
            = res := by
          exact (Except.ok.injEq _ _).mp h
        have hcombos' : findOfferCombinations (sortBy offerLt filteredOffers) t maxOffers ≠ [] := by
          intro hnil
          rw [hnil] at hcombos
          exact hcombos rfl
        have hranked_ne : sortBy effGt (findOfferCombinations (sortBy offerLt filteredOffers) t maxOffers) ≠ [] := by
          intro hnil
          exact hcombos' (sortBy_eq_nil_iff.mp hnil)
        refine ⟨filteredOffers,
          (sortBy effGt (findOfferCombinations (sortBy offerLt filteredOffers) t maxOffers)).tail,
          heq, ?_, ?_, ?_, ?_, ?_, ?_⟩
        · rw [← hok]
          exact headD_cons_tail hranked_ne
        · rw [← hok]
          simp [mkResult, List.drop_one]
        · rw [← hok]
          rfl
        · rw [← hok]
          rfl
        · rw [← hok]
          rfl
        · rw [← hok]
          rfl

/-- The ranked route list is sorted by nonincreasing efficiency. -/
theorem sortBy_effGt_pairwise (l : List TradingRoute) :
    (sortBy effGt l).Pairwise fun a b => b.efficiency ≤ a.efficiency := by
  have hpair : (sortBy effGt l).Pairwise fun a b => effGt b a = false := by
    refine pairwise_sortBy ?_ ?_
    · intro a _ b _ hab
      rw [effGt] at hab ⊢
      simp only [decide_eq_true_eq] at hab
      simp only [decide_eq_false_iff_not]
      exact lt_asymm hab
    · intro a _ b _ c _ hba hcb
      rw [effGt] at hba hcb ⊢
      simp only [decide_eq_false_iff_not, not_lt] at hba hcb ⊢
      linarith
  refine List.Pairwise.imp ?_ hpair
  intro a b hab
  rw [effGt] at hab
  simp only [decide_eq_false_iff_not, not_lt] at hab
  exact hab

/-- Offers surviving the bank filter come from the catalog. -/
theorem applyBankFilter_subset {offers filtered : List PriceData} {bf : Option (List Char)}
    (h : applyBankFilter offers bf = Except.ok filtered) :
    ∀ o ∈ filtered, o ∈ offers := by
  cases bf with
  | none =>
    simp only [applyBankFilter] at h
    obtain rfl : offers = filtered := (Except.ok.injEq _ _).mp h
    exact fun o ho => ho
  | some q =>
    simp only [applyBankFilter] at h
    by_cases hq : q = []
    · rw [if_pos hq] at h
      obtain rfl : offers = filtered := (Except.ok.injEq _ _).mp h
      exact fun o ho => ho
    · rw [if_neg hq] at h
      by_cases hf : offers.filter (matchesBank q) = []
      · rw [if_pos hf] at h
        exact absurd h (by simp)
      · rw [if_neg hf] at h
        obtain rfl : offers.filter (matchesBank q) = filtered := (Except.ok.injEq _ _).mp h
        exact fun o ho => (List.mem_filter.mp ho).1

/-- Every route of a successful result (the best route and each alternative)
was built by `calculateRouteFromOffers` from a nonempty combination of catalog
offers. -/
theorem mem_result_routes {offers : List PriceData} {t : ℚ} {maxOffers : ℕ}
    {bf : Option (List Char)} {res : TradingCalculatorResult}
    (h : calculateBestTradingRoute offers t maxOffers bf = Except.ok res) :
    ∀ r ∈ res.bestRoute :: res.alternativeRoutes,
      ∃ c, c ≠ [] ∧ (∀ o ∈ c, o ∈ offers) ∧ calculateRouteFromOffers c t = some r := by
  intro r hr
  rcases calculateBestTradingRoute_ok_inv h with
    ⟨_, filteredOffers, rest, hfil, hranked, halts, _, _, _, _⟩
  have hrmem : r ∈ sortBy effGt (findOfferCombinations (sortBy offerLt filteredOffers) t maxOffers) := by
    rw [hranked]
    rcases List.mem_cons.mp hr with rfl | hr'
    · exact List.mem_cons_self _ _
    · rw [halts] at hr'
      exact List.mem_cons_of_mem _ (List.mem_of_mem_take hr')
  have hrcombos : r ∈ findOfferCombinations (sortBy offerLt filteredOffers) t maxOffers :=
    mem_sortBy.mp hrmem
  rcases mem_findOfferCombinations hrcombos with ⟨c, hcne, hcsub, hcr⟩
  refine ⟨c, hcne, ?_, hcr⟩
  intro o ho
  exact applyBankFilter_subset hfil o (mem_sortBy.mp (hcsub.subset ho))

/-! ## Evaluation of the witness catalog -/

theorem wRoute_eq : calculateRouteFromOffers [wOffer] 50 = some wRoute := by
  rw [calculateRouteFromOffers_single (o := wOffer) (t := 50) (by norm_num)
    (by norm_num [wOffer]) (by norm_num [wOffer])]
  rfl

theorem wCalc_eq : calculateBestTradingRoute [wOffer] 50 5 none
    = Except.ok (mkResult [wOffer] 50 [wRoute]) := by
  have hcombos : findOfferCombinations (sortBy offerLt [wOffer]) 50 5 = [wRoute] := by
    show combosForSizes [wOffer] 50 (sizesFrom 1 1) = [wRoute]
    norm_num [combosForSizes, sizesFrom, generateCombinations, List.filterMap_cons, wRoute_eq]
  unfold calculateBestTradingRoute
  rw [if_neg (by simp)]
  simp only [applyBankFilter]
  rw [hcombos]
  simp only [List.isEmpty_cons, if_neg]
  rfl

theorem wRes_eq : wRes = mkResult [wOffer] 50 [wRoute] := by
  unfold wRes
  rw [wCalc_eq]
  rfl

theorem wRes_spec : calculateBestTradingRoute [wOffer] 50 5 none = Except.ok wRes := by
  rw [wCalc_eq, wRes_eq]

theorem wRes_bestRoute : wRes.bestRoute = wRoute := by
  rw [wRes_eq]
  rfl

/-! ## Head of the combination list (single-offer shortcut) -/

/-- When the catalog head's single-offer route is valid, it is the first
enumerated combination. -/
theorem findOfferCombinations_head {s0 : PriceData} {stail : List PriceData} {t : ℚ}
    {maxOffers : ℕ} {r0 : TradingRoute}
    (hmax : 1 ≤ maxOffers)
    (hr0 : calculateRouteFromOffers [s0] t = some r0) :
    ∃ others, findOfferCombinations (s0 :: stail) t maxOffers = r0 :: others := by
  unfold findOfferCombinations
  obtain ⟨k, hk⟩ : ∃ k, min maxOffers (s0 :: stail).length = k + 1 := by
    have h1 : 1 ≤ min maxOffers (s0 :: stail).length := le_min hmax (by simp)
    exact ⟨min maxOffers (s0 :: stail).length - 1, by omega⟩
  rw [hk]
  rw [sizesFrom, combosForSizes, generateCombinations]
  rw [List.map_cons, List.filterMap_cons, hr0]
  exact ⟨_, rfl⟩

/-! # Claims -/

/-- **C2** (exact-fill invariant): for every route returned by
`calculateBestTradingRoute` — the best route and every alternative — the sum
of the per-offer consumed amounts equals the requested (nonnegative) target
exactly, and the route's `totalAmount` field equals the target; moreover any
combination whose nonnegative availabilities sum to less than the target is
discarded (`calculateRouteFromOffers` returns `null`), never returned as a
partial fill. -/
theorem claimC2_exact_fill {offers : List PriceData} {t : ℚ} {maxOffers : ℕ}
    {bf : Option (List Char)} {res : TradingCalculatorResult}
    (h : calculateBestTradingRoute offers t maxOffers bf = Except.ok res)
    (ht : 0 ≤ t) :
    (∀ r ∈ res.bestRoute :: res.alternativeRoutes,
      ((r.offers.map PriceData.amount).sum) = t ∧ r.totalAmount = t) ∧
    ∀ c : List PriceData, (∀ o ∈ c, 0 ≤ o.amount) →
      ((c.map PriceData.amount).sum) < t → calculateRouteFromOffers c t = none := by
  constructor
  · intro r hr
    rcases mem_result_routes h r hr with ⟨c, _, _, hcr⟩
    exact calculateRouteFromOffers_exact_fill hcr ht
  · intro c ha hsum
    exact calculateRouteFromOffers_eq_none_of_sum_lt ha hsum

/-- Witness for C2 at the one-offer catalog `[wOffer]`, target 50. -/
theorem claimC2_witness :
    (0 : ℚ) ≤ 50 ∧
    ((wRes.bestRoute.offers.map PriceData.amount).sum) = 50 ∧ wRes.bestRoute.totalAmount = 50 :=
  ⟨by norm_num,
    (claimC2_exact_fill wRes_spec (by norm_num)).1 wRes.bestRoute
      (List.mem_cons_self _ _)⟩

/-- **C6** (monotonic ranking): in every successful result, the best route's
efficiency dominates every alternative's, the alternatives are ordered by
nonincreasing efficiency, there are at most three of them, and they are
exactly the three entries following the best route in the efficiency-ranked
combination list (so none of them occupies the best-route slot). -/
theorem claimC6_monotonic_ranking {offers : List PriceData} {t : ℚ} {maxOffers : ℕ}
    {bf : Option (List Char)} {res : TradingCalculatorResult}
    (h : calculateBestTradingRoute offers t maxOffers bf = Except.ok res) :
    (∀ r ∈ res.alternativeRoutes, r.efficiency ≤ res.bestRoute.efficiency) ∧
    res.alternativeRoutes.Pairwise (fun a b => b.efficiency ≤ a.efficiency) ∧
    res.alternativeRoutes.length ≤ 3 ∧
    ∃ filteredOffers rest,
      applyBankFilter offers bf = Except.ok filteredOffers ∧
      sortBy effGt (findOfferCombinations (sortBy offerLt filteredOffers) t maxOffers) =
        res.bestRoute :: rest ∧
      res.alternativeRoutes = rest.take 3 := by
  rcases calculateBestTradingRoute_ok_inv h with
    ⟨_, filteredOffers, rest, hfil, hranked, halts, _, _, _, _⟩
  have hpair := sortBy_effGt_pairwise (findOfferCombinations (sortBy offerLt filteredOffers) t maxOffers)
  rw [hranked, List.pairwise_cons] at hpair
  refine ⟨?_, ?_, ?_, filteredOffers, rest, hfil, hranked, halts⟩
  · intro r hr
    rw [halts] at hr
    exact hpair.1 r (List.mem_of_mem_take hr)
  · rw [halts]
    exact hpair.2.sublist (List.take_sublist 3 rest)
  · rw [halts]
    exact List.length_take_le 3 rest

/-- Witness for C6 at the one-offer catalog `[wOffer]`, target 50. -/
theorem claimC6_witness :
    wRes.alternativeRoutes.length ≤ 3 :=
  (claimC6_monotonic_ranking wRes_spec).2.2.1

/-- **C9** (capacity invariant): every consumed-offer entry of every returned
route is a field-for-field copy of a catalog offer whose `amount` field was
overridden by the consumed amount, and that consumed amount never exceeds the
original offer's availability.  (The embedding is a pure function of its
inputs, so the input catalog itself is never mutated.) -/
theorem claimC9_capacity {offers : List PriceData} {t : ℚ} {maxOffers : ℕ}
    {bf : Option (List Char)} {res : TradingCalculatorResult}
    (h : calculateBestTradingRoute offers t maxOffers bf = Except.ok res) :
    ∀ r ∈ res.bestRoute :: res.alternativeRoutes, ∀ u ∈ r.offers,
      ∃ o, o ∈ offers ∧ u.amount ≤ o.amount ∧ u = { o with amount := u.amount } := by
  intro r hr u hu
  rcases mem_result_routes h r hr with ⟨c, _, hco, hcr⟩
  rcases calculateRouteFromOffers_inv hcr with ⟨_, hrec⟩
  have hu' : u ∈ (greedyConsume (sortBy offerLt c) t).1 := by
    rw [hrec] at hu
    exact hu
  rcases greedyConsume_used _ t u hu' with ⟨o, ho, hco2, hle⟩
  exact ⟨o, hco o (mem_sortBy.mp ho), hle, hco2⟩

/-- Witness for C9 at the one-offer catalog `[wOffer]`, target 50. -/
theorem claimC9_witness :
    ∃ o, o ∈ [wOffer] ∧ ({ wOffer with amount := (50 : ℚ) }).amount ≤ o.amount ∧
      { wOffer with amount := (50 : ℚ) } =
        { o with amount := ({ wOffer with amount := (50 : ℚ) }).amount } := by
  have h := claimC9_capacity wRes_spec wRes.bestRoute (List.mem_cons_self _ _)
    { wOffer with amount := (50 : ℚ) }
    (by rw [wRes_bestRoute]; exact List.mem_cons_self _ _)
  exact h

/-- Sums of nonnegative amounts only grow along sublists. -/
theorem sublist_sum_amount_le {c l : List PriceData} (h : List.Sublist c l)
    (ha : ∀ o ∈ l, 0 ≤ o.amount) :
    ((c.map PriceData.amount).sum) ≤ ((l.map PriceData.amount).sum) := by
  induction h with
  | slnil => simp
  | cons o hsub ih =>
    rename_i l₁ l₂
    simp only [List.map_cons, List.sum_cons]
    have h1 := ih (fun x hx => ha x (List.mem_cons_of_mem o hx))
    have h2 : 0 ≤ o.amount := ha o (List.mem_cons_self o l₂)
    linarith
  | cons₂ o hsub ih =>
    rename_i l₁ l₂
    simp only [List.map_cons, List.sum_cons]
    have h1 := ih (fun x hx => ha x (List.mem_cons_of_mem o hx))
    linarith

/-- **C4** (infeasibility): with a nonempty catalog that passes the bank
filter, if the filtered catalog's total availability is strictly below the
target then `calculateBestTradingRoute` fails with the no-combination error
carrying the target (the `Except` result carries no partial result). -/
theorem claimC4_infeasible {offers filteredOffers : List PriceData} {t : ℚ} {maxOffers : ℕ}
    {bf : Option (List Char)}
    (h0 : offers ≠ [])
    (hf : applyBankFilter offers bf = Except.ok filteredOffers)
    (ha : ∀ o ∈ filteredOffers, 0 ≤ o.amount)
    (hsum : ((filteredOffers.map PriceData.amount).sum) < t) :
    calculateBestTradingRoute offers t maxOffers bf =
      Except.error (CalcError.noCombinationFound t) := by
  have hsum' : (((sortBy offerLt filteredOffers).map PriceData.amount).sum) < t := by
    rw [((perm_sortBy offerLt filteredOffers).map PriceData.amount).sum_eq]
    exact hsum
  have ha' : ∀ o ∈ sortBy offerLt filteredOffers, 0 ≤ o.amount :=
    fun o ho => ha o (mem_sortBy.mp ho)
  have hcombos : findOfferCombinations (sortBy offerLt filteredOffers) t maxOffers = [] := by
    rw [List.eq_nil_iff_forall_not_mem]
    intro r hr
    rcases mem_findOfferCombinations hr with ⟨c, _, hcsub, hcr⟩
    have hclt : ((c.map PriceData.amount).sum) < t :=
      lt_of_le_of_lt (sublist_sum_amount_le hcsub ha') hsum'
    have hnone : calculateRouteFromOffers c t = none :=
      calculateRouteFromOffers_eq_none_of_sum_lt
        (fun o ho => ha' o (hcsub.subset ho)) hclt
    rw [hnone] at hcr
    exact absurd hcr (by simp)
  unfold calculateBestTradingRoute
  rw [if_neg h0, hf]
  show (if (findOfferCombinations (sortBy offerLt filteredOffers) t maxOffers).isEmpty
    then Except.error (CalcError.noCombinationFound t) else _) = _
  rw [hcombos]
  rfl

/-- Witness for C4: a one-offer catalog with availability 5 cannot fill 50. -/
theorem claimC4_witness :
    [cexOfferA] ≠ [] ∧ (([cexOfferA].map PriceData.amount).sum) < 50 ∧
    calculateBestTradingRoute [cexOfferA] 50 5 none =
      Except.error (CalcError.noCombinationFound 50) := by
  refine ⟨by simp, by norm_num [cexOfferA], ?_⟩
  exact claimC4_infeasible (by simp) rfl
    (by intro o ho; simp only [List.mem_singleton] at ho; rw [ho]; norm_num [cexOfferA])
    (by norm_num [cexOfferA])

/-- **C10** (implicit): any valid route built from a single offer has
efficiency exactly 100%, whatever the rest of the catalog looks like, because
the route's efficiency is computed against the best price of the route's own
offer subset: here the offer's own price. -/
theorem claimC10_single_offer_eff {o : PriceData} {t : ℚ} {r : TradingRoute}
    (ht : 0 < t) (hp : 0 < o.price)
    (hr : calculateRouteFromOffers [o] t = some r) :
    r.efficiency = 100 ∧ r.offers = [{ o with amount := t }] ∧
    r.averagePrice = o.price := by
  have hrem : (greedyConsume (sortBy offerLt [o]) t).2.2 = t - min t o.amount := by
    show (greedyConsume [o] t).2.2 = _
    rw [greedyConsume, if_neg (by linarith)]
    rfl
  have hle : t ≤ o.amount := by
    rcases calculateRouteFromOffers_inv hr with ⟨hle0, _⟩
    rw [hrem] at hle0
    rcases le_or_lt t o.amount with h | h
    · exact h
    · rw [min_eq_right h.le] at hle0
      linarith
  rw [calculateRouteFromOffers_single ht hp hle] at hr
  have := (Option.some.injEq _ _).mp hr
  rw [← this]
  exact ⟨rfl, rfl, rfl⟩

/-- Witness for C10 at `wOffer`, target 50. -/
theorem claimC10_witness :
    (0 : ℚ) < 50 ∧ 0 < wOffer.price ∧ wRoute.efficiency = 100 :=
  ⟨by norm_num, by norm_num [wOffer],
    (claimC10_single_offer_eff (by norm_num) (by norm_num [wOffer]) wRoute_eq).1⟩

/-- Direction-independent route scoring: with a positive target, the stored
efficiency of any returned route is the first sorted offer's price divided by
the route's average price, times 100, and the route's first used offer is a
copy of that first sorted offer.  Holds for BUY and SELL alike — the sort
comparator only decides *which* offer is first. -/
theorem calculateRouteFromOffers_eff_formula {c : List PriceData} {t : ℚ} {r : TradingRoute}
    {s0 : PriceData} {srest : List PriceData}
    (hr : calculateRouteFromOffers c t = some r)
    (hsort : sortBy offerLt c = s0 :: srest)
    (ht : 0 < t) :
    r.efficiency = s0.price / r.averagePrice * 100 ∧
    r.offers.head? = some { s0 with amount := min t s0.amount } := by
  rcases calculateRouteFromOffers_inv hr with ⟨_, hrec⟩
  constructor
  · rw [hrec]
    show _ = s0.price / _ * 100
    rw [mkRoute, hsort]
    simp
  · rw [hrec]
    show (greedyConsume (sortBy offerLt c) t).1.head? = _
    rw [hsort, greedyConsume_head s0 srest t ht]
    rfl

/-- **C1 (amended)**: for every route of a successful result with a positive
target and positive catalog prices — BUY or SELL — the stored efficiency
equals the price of the route's *own first (best-priced) used offer* divided
by the route's average price, times 100 — not the price at index 0 of the
full sorted catalog — and it equals 100% exactly when the average price
matches that subset-best price. -/
theorem claimC1_amended {offers : List PriceData} {t : ℚ} {maxOffers : ℕ}
    {bf : Option (List Char)} {res : TradingCalculatorResult}
    (h : calculateBestTradingRoute offers t maxOffers bf = Except.ok res)
    (ht : 0 < t)
    (hp : ∀ o ∈ offers, 0 < o.price) :
    ∀ r ∈ res.bestRoute :: res.alternativeRoutes,
      r.efficiency = (((r.offers.head?).map PriceData.price).getD 0) / r.averagePrice * 100 ∧
      (r.efficiency = 100 ↔
        r.averagePrice = (((r.offers.head?).map PriceData.price).getD 0)) := by
  intro r hr
  rcases mem_result_routes h r hr with ⟨c, hcne, hco, hcr⟩
  rcases hs : sortBy offerLt c with _ | ⟨s0, srest⟩
  · exact absurd (sortBy_eq_nil_iff.mp hs) hcne
  · rcases calculateRouteFromOffers_eff_formula hcr hs ht with ⟨heff, hhead⟩
    have hs0mem : s0 ∈ c := mem_sortBy.mp (by rw [hs]; exact List.mem_cons_self s0 srest)
    have hp0 : 0 < s0.price := hp s0 (hco s0 hs0mem)
    have hhead' : (((r.offers.head?).map PriceData.price).getD 0) = s0.price := by
      rw [hhead]
      rfl
    rw [hhead']
    refine ⟨heff, ?_⟩
    rw [heff]
    constructor
    · intro h100
      have hdiv : s0.price / r.averagePrice = 1 := by linarith
      have havg0 : r.averagePrice ≠ 0 := by
        intro h0
        rw [h0, div_zero] at hdiv
        exact absurd hdiv (by norm_num)
      field_simp at hdiv
      linarith
    · intro heq
      rw [heq, div_self (ne_of_gt hp0), one_mul]

/-- Witness for the amended C1 at the one-offer catalog `[wOffer]`, target 50. -/
theorem claimC1_witness :
    (0 : ℚ) < 50 ∧ 0 < wOffer.price ∧
    wRes.bestRoute.efficiency =
      (((wRes.bestRoute.offers.head?).map PriceData.price).getD 0) /
        wRes.bestRoute.averagePrice * 100 := by
  refine ⟨by norm_num, by norm_num [wOffer], ?_⟩
  exact (claimC1_amended wRes_spec (by norm_num)
    (by intro o ho; simp only [List.mem_singleton] at ho; rw [ho]; norm_num [wOffer])
    wRes.bestRoute (List.mem_cons_self _ _)).1

/-- **C1 counterexample**: on the catalog `[cexOfferA (price 10, amount 5),
cexOfferB (price 20, amount 100)]` with target 100, the returned best route is
the single offer `cexOfferB` with efficiency 100, while the single best price
of the full sorted catalog (index 0) is 10 and 10 / averagePrice × 100 = 50:
the stored efficiency is not computed against the catalog-wide best price. -/
theorem claimC1_counterexample :
    ((calculateBestTradingRoute [cexOfferA, cexOfferB] 100 5 none).toOption.map
      (fun res => res.bestRoute.efficiency)) = some 100 ∧
    (((sortBy offerLt [cexOfferA, cexOfferB]).head?).map PriceData.price) = some 10 ∧
    ((calculateBestTradingRoute [cexOfferA, cexOfferB] 100 5 none).toOption.map
      (fun res => (10 : ℚ) / res.bestRoute.averagePrice * 100)) = some 50 ∧
    (100 : ℚ) ≠ 50 := by
  have hA : calculateRouteFromOffers [cexOfferA] 100 = none := by
    norm_num [calculateRouteFromOffers, sortBy, insertBy, greedyConsume, cexOfferA, min_def]
  have hB : calculateRouteFromOffers [cexOfferB] 100 = some
      { offers := [{ cexOfferB with amount := 100 }], totalAmount := 100, totalCost := 2000,
        averagePrice := 20, savings := 0, efficiency := 100 } := by
    norm_num [calculateRouteFromOffers, sortBy, insertBy, greedyConsume, mkRoute,
      cexOfferB, min_def]
  have hAB : calculateRouteFromOffers [cexOfferA, cexOfferB] 100 = some
      { offers := [{ cexOfferA with amount := 5 }, { cexOfferB with amount := 95 }],
        totalAmount := 100, totalCost := 1950, averagePrice := 39/2, savings := 50,
        efficiency := 2000/39 } := by
    norm_num [calculateRouteFromOffers, sortBy, insertBy, offerLt, greedyConsume, mkRoute,
      cexOfferA, cexOfferB, min_def]
  have hsort : sortBy offerLt [cexOfferA, cexOfferB] = [cexOfferA, cexOfferB] := by
    norm_num [sortBy, insertBy, offerLt, cexOfferA, cexOfferB]
  have hcombos : findOfferCombinations (sortBy offerLt [cexOfferA, cexOfferB]) 100 5 =
      [{ offers := [{ cexOfferB with amount := 100 }], totalAmount := 100, totalCost := 2000,
         averagePrice := 20, savings := 0, efficiency := 100 },
       { offers := [{ cexOfferA with amount := 5 }, { cexOfferB with amount := 95 }],
         totalAmount := 100, totalCost := 1950, averagePrice := 39/2, savings := 50,
         efficiency := 2000/39 }] := by
    rw [hsort]
    show combosForSizes [cexOfferA, cexOfferB] 100 (sizesFrom 1 2) = _
    norm_num [sizesFrom, combosForSizes, generateCombinations, List.filterMap_cons,
      hA, hB, hAB]
  have hranked : sortBy effGt
      [{ offers := [{ cexOfferB with amount := 100 }], totalAmount := 100, totalCost := 2000,
         averagePrice := 20, savings := 0, efficiency := 100 },
       { offers := [{ cexOfferA with amount := 5 }, { cexOfferB with amount := 95 }],
         totalAmount := 100, totalCost := 1950, averagePrice := 39/2, savings := 50,
         efficiency := 2000/39 }] =
      [{ offers := [{ cexOfferB with amount := 100 }], totalAmount := 100, totalCost := 2000,
         averagePrice := 20, savings := 0, efficiency := 100 },
       { offers := [{ cexOfferA with amount := 5 }, { cexOfferB with amount := 95 }],
         totalAmount := 100, totalCost := 1950, averagePrice := 39/2, savings := 50,
         efficiency := 2000/39 }] := by
    norm_num [sortBy, insertBy, effGt]
  have hcalc : calculateBestTradingRoute [cexOfferA, cexOfferB] 100 5 none = Except.ok
      (mkResult [cexOfferA, cexOfferB] 100
        [{ offers := [{ cexOfferB with amount := 100 }], totalAmount := 100, totalCost := 2000,
           averagePrice := 20, savings := 0, efficiency := 100 },
         { offers := [{ cexOfferA with amount := 5 }, { cexOfferB with amount := 95 }],
           totalAmount := 100, totalCost := 1950, averagePrice := 39/2, savings := 50,
           efficiency := 2000/39 }]) := by
    unfold calculateBestTradingRoute
    rw [if_neg (by simp)]
    simp only [applyBankFilter]
    rw [hcombos, hranked]
    simp only [List.isEmpty_cons, Bool.false_eq_true, if_false]
  refine ⟨?_, ?_, ?_, by norm_num⟩
  · rw [hcalc]
    rfl
  · rw [hsort]
    rfl
  · rw [hcalc]
    show some ((10 : ℚ) / 20 * 100) = some 50
    norm_num

/-- **C3 (amended)**: each returned route's `savings` field equals
(worst price within the route's *own sorted offer subset* − the route's
average price) × targetAmount; the catalog-wide formula of the claim holds
only for the result's `summary.savings`, computed from the sorted filtered
catalog's last (worst) price and the best route's average price. -/
theorem claimC3_amended {offers : List PriceData} {t : ℚ} {maxOffers : ℕ}
    {bf : Option (List Char)} {res : TradingCalculatorResult}
    (h : calculateBestTradingRoute offers t maxOffers bf = Except.ok res) :
    (∀ r ∈ res.bestRoute :: res.alternativeRoutes,
      ∃ c, c ≠ [] ∧ (∀ o ∈ c, o ∈ offers) ∧ calculateRouteFromOffers c t = some r ∧
        r.savings =
          ((((sortBy offerLt c).getLast?).map PriceData.price).getD 0 - r.averagePrice) * t) ∧
    ∃ filteredOffers,
      applyBankFilter offers bf = Except.ok filteredOffers ∧
      res.summary.savings =
        ((((sortBy offerLt filteredOffers).getLast?).map PriceData.price).getD 0
          - res.bestRoute.averagePrice) * t := by
  constructor
  · intro r hr
    rcases mem_result_routes h r hr with ⟨c, hcne, hco, hcr⟩
    rcases calculateRouteFromOffers_inv hcr with ⟨_, hrec⟩
    refine ⟨c, hcne, hco, hcr, ?_⟩
    rw [hrec]
    rfl
  · rcases calculateBestTradingRoute_ok_inv h with
      ⟨_, filteredOffers, rest, hfil, _, _, _, hsav, _, _⟩
    exact ⟨filteredOffers, hfil, hsav⟩

/-- Witness for the amended C3: summary savings of the one-offer catalog. -/
theorem claimC3_witness :
    wRes.summary.savings =
      ((((sortBy offerLt [wOffer]).getLast?).map PriceData.price).getD 0
        - wRes.bestRoute.averagePrice) * 50 := by
  rcases (claimC3_amended wRes_spec).2 with ⟨f, hf, hsav⟩
  have hfe : [wOffer] = f := (Except.ok.injEq _ _).mp hf
  rw [← hfe] at hsav
  exact hsav

/-- **C3 counterexample**: on the catalog `[cexOfferC (price 10, amount 100),
cexOfferB (price 20, amount 100)]` with target 50, the best route is the
single cheap offer; its stored `savings` is 0 (its own subset's worst price is
its own price), while the claimed formula (catalog worst 20 − average 10) × 50
gives 500. -/
theorem claimC3_counterexample :
    ((calculateBestTradingRoute [cexOfferC, cexOfferB] 50 5 none).toOption.map
      (fun res => res.bestRoute.savings)) = some 0 ∧
    (((sortBy offerLt [cexOfferC, cexOfferB]).getLast?).map PriceData.price) = some 20 ∧
    ((calculateBestTradingRoute [cexOfferC, cexOfferB] 50 5 none).toOption.map
      (fun res => ((20 : ℚ) - res.bestRoute.averagePrice) * 50)) = some 500 ∧
    (0 : ℚ) ≠ 500 := by
  have hC : calculateRouteFromOffers [cexOfferC] 50 = some
      { offers := [{ cexOfferC with amount := 50 }], totalAmount := 50, totalCost := 500,
        averagePrice := 10, savings := 0, efficiency := 100 } := by
    norm_num [calculateRouteFromOffers, sortBy, insertBy, greedyConsume, mkRoute,
      cexOfferC, min_def]
  have hB : calculateRouteFromOffers [cexOfferB] 50 = some
      { offers := [{ cexOfferB with amount := 50 }], totalAmount := 50, totalCost := 1000,
        averagePrice := 20, savings := 0, efficiency := 100 } := by
    norm_num [calculateRouteFromOffers, sortBy, insertBy, greedyConsume, mkRoute,
      cexOfferB, min_def]
  have hCB : calculateRouteFromOffers [cexOfferC, cexOfferB] 50 = some
      { offers := [{ cexOfferC with amount := 50 }], totalAmount := 50, totalCost := 500,
        averagePrice := 10, savings := 500, efficiency := 100 } := by
    norm_num [calculateRouteFromOffers, sortBy, insertBy, offerLt, greedyConsume, mkRoute,
      cexOfferC, cexOfferB, min_def]
  have hsort : sortBy offerLt [cexOfferC, cexOfferB] = [cexOfferC, cexOfferB] := by
    norm_num [sortBy, insertBy, offerLt, cexOfferC, cexOfferB]
  have hcombos : findOfferCombinations (sortBy offerLt [cexOfferC, cexOfferB]) 50 5 =
      [{ offers := [{ cexOfferC with amount := 50 }], totalAmount := 50, totalCost := 500,
         averagePrice := 10, savings := 0, efficiency := 100 },
       { offers := [{ cexOfferB with amount := 50 }], totalAmount := 50, totalCost := 1000,
         averagePrice := 20, savings := 0, efficiency := 100 },
       { offers := [{ cexOfferC with amount := 50 }], totalAmount := 50, totalCost := 500,
         averagePrice := 10, savings := 500, efficiency := 100 }] := by
    rw [hsort]
    show combosForSizes [cexOfferC, cexOfferB] 50 (sizesFrom 1 2) = _
    norm_num [sizesFrom, combosForSizes, generateCombinations, List.filterMap_cons,
      hC, hB, hCB]
  have hranked : sortBy effGt
      [{ offers := [{ cexOfferC with amount := 50 }], totalAmount := 50, totalCost := 500,
         averagePrice := 10, savings := 0, efficiency := 100 },
       { offers := [{ cexOfferB with amount := 50 }], totalAmount := 50, totalCost := 1000,
         averagePrice := 20, savings := 0, efficiency := 100 },
       { offers := [{ cexOfferC with amount := 50 }], totalAmount := 50, totalCost := 500,
         averagePrice := 10, savings := 500, efficiency := 100 }] =
      [{ offers := [{ cexOfferC with amount := 50 }], totalAmount := 50, totalCost := 500,
         averagePrice := 10, savings := 0, efficiency := 100 },
       { offers := [{ cexOfferB with amount := 50 }], totalAmount := 50, totalCost := 1000,
         averagePrice := 20, savings := 0, efficiency := 100 },
       { offers := [{ cexOfferC with amount := 50 }], totalAmount := 50, totalCost := 500,
         averagePrice := 10, savings := 500, efficiency := 100 }] := by
    norm_num [sortBy, insertBy, effGt]
  have hcalc : calculateBestTradingRoute [cexOfferC, cexOfferB] 50 5 none = Except.ok
      (mkResult [cexOfferC, cexOfferB] 50
        [{ offers := [{ cexOfferC with amount := 50 }], totalAmount := 50, totalCost := 500,
           averagePrice := 10, savings := 0, efficiency := 100 },
         { offers := [{ cexOfferB with amount := 50 }], totalAmount := 50, totalCost := 1000,
           averagePrice := 20, savings := 0, efficiency := 100 },
         { offers := [{ cexOfferC with amount := 50 }], totalAmount := 50, totalCost := 500,
           averagePrice := 10, savings := 500, efficiency := 100 }]) := by
    unfold calculateBestTradingRoute
    rw [if_neg (by simp)]
    simp only [applyBankFilter]
    rw [hcombos, hranked]
    simp only [List.isEmpty_cons, Bool.false_eq_true, if_false]
  refine ⟨?_, ?_, ?_, by norm_num⟩
  · rw [hcalc]
    rfl
  · rw [hsort]
    rfl
  · rw [hcalc]
    show some (((20 : ℚ) - 10) * 50) = some 500
    norm_num

/-- **C5** (single-offer shortcut): on a nonempty all-BUY catalog with
positive prices and amounts, if the best-priced offer (the head of the sorted
catalog, the canonical tie-break) can cover the whole positive target by
itself, the returned best route is exactly that single offer consumed for the
whole target, at 100% efficiency.  The proof uses that every candidate route's
efficiency is ≤ 100 and that the single-offer route of the sorted head is the
first enumerated combination, so the stable efficiency sort keeps it first. -/
theorem claimC5_single_offer_shortcut {offers : List PriceData} {t : ℚ} {maxOffers : ℕ}
    {best : PriceData} {restOffers : List PriceData}
    (hsort : sortBy offerLt offers = best :: restOffers)
    (ht : 0 < t) (hmax : 1 ≤ maxOffers)
    (hBUY : ∀ o ∈ offers, o.tradeType = TradeType.BUY)
    (hp : ∀ o ∈ offers, 0 < o.price)
    (ha : ∀ o ∈ offers, 0 ≤ o.amount)
    (hbest : t ≤ best.amount) :
    ∃ res, calculateBestTradingRoute offers t maxOffers none = Except.ok res ∧
      res.bestRoute.offers = [{ best with amount := t }] ∧
      res.bestRoute.totalAmount = t ∧
      res.bestRoute.averagePrice = best.price ∧
      res.bestRoute.efficiency = 100 := by
  have hne : offers ≠ [] := by
    intro hnil
    rw [hnil] at hsort
    exact absurd hsort (by simp [sortBy])
  have hbestmem : best ∈ offers :=
    mem_sortBy.mp (by rw [hsort]; exact List.mem_cons_self _ _)
  have hr0 : calculateRouteFromOffers [best] t = some
      { offers := [{ best with amount := t }], totalAmount := t, totalCost := t * best.price,
        averagePrice := best.price, savings := 0, efficiency := 100 } :=
    calculateRouteFromOffers_single ht (hp best hbestmem) hbest
  rcases @findOfferCombinations_head best restOffers t maxOffers _ hmax hr0 with
    ⟨others, hcombs⟩
  have heffle : ∀ b ∈ findOfferCombinations (best :: restOffers) t maxOffers,
      b.efficiency ≤ 100 := by
    intro b hb
    rcases mem_findOfferCombinations hb with ⟨c, _, hcsub, hcr⟩
    have hcoffers : ∀ o ∈ c, o ∈ offers := by
      intro o ho
      have hmem : o ∈ best :: restOffers := hcsub.subset ho
      rw [← hsort] at hmem
      exact mem_sortBy.mp hmem
    exact calculateRouteFromOffers_eff_le hcr ht (fun o ho => hBUY o (hcoffers o ho))
      (fun o ho => hp o (hcoffers o ho)) (fun o ho => ha o (hcoffers o ho))
  have hminsort : ∀ b ∈ others, effGt b
      { offers := [{ best with amount := t }], totalAmount := t, totalCost := t * best.price,
        averagePrice := best.price, savings := 0, efficiency := 100 } = false := by
    intro b hb
    have hble : b.efficiency ≤ 100 := heffle b (by rw [hcombs]; exact List.mem_cons_of_mem _ hb)
    rw [effGt]
    simp only [decide_eq_false_iff_not, not_lt]
    exact hble
  rcases @sortBy_cons_of_min TradingRoute effGt
      { offers := [{ best with amount := t }], totalAmount := t, totalCost := t * best.price,
        averagePrice := best.price, savings := 0, efficiency := 100 } others hminsort with
    ⟨m, hm⟩
  refine ⟨mkResult offers t
      ({ offers := [{ best with amount := t }], totalAmount := t, totalCost := t * best.price,
         averagePrice := best.price, savings := 0, efficiency := 100 } :: m),
    ?_, rfl, rfl, rfl, rfl⟩
  unfold calculateBestTradingRoute
  rw [if_neg hne]
  simp only [applyBankFilter]
  rw [hsort, hcombs]
  rw [if_neg (by simp)]
  rw [hm]

/-- Witness for C5 at the one-offer catalog `[wOffer]`, target 50. -/
theorem claimC5_witness :
    (0 : ℚ) < 50 ∧ (50 : ℚ) ≤ wOffer.amount ∧
    wRes.bestRoute.offers = [{ wOffer with amount := (50 : ℚ) }] ∧
    wRes.bestRoute.efficiency = 100 := by
  rcases @claimC5_single_offer_shortcut [wOffer] 50 5 wOffer [] rfl (by norm_num)
    (by norm_num)
    (by intro o ho; simp only [List.mem_singleton] at ho; rw [ho]; rfl)
    (by intro o ho; simp only [List.mem_singleton] at ho; rw [ho]; norm_num [wOffer])
    (by intro o ho; simp only [List.mem_singleton] at ho; rw [ho]; norm_num [wOffer])
    (by norm_num [wOffer]) with ⟨res, hres, hoff, _, _, heff⟩
  have hreseq : res = wRes := by
    have hspec := wRes_spec
    rw [hres] at hspec
    exact (Except.ok.injEq _ _).mp hspec
  subst hreseq
  exact ⟨by norm_num, by norm_num [wOffer], hoff, heff⟩

/-! ## Substring characterization -/

theorem isPrefixOf_iff_append :
    ∀ p s : List Char, p.isPrefixOf s = true ↔ ∃ q, s = p ++ q
  | [], s => by simp [List.isPrefixOf]
  | a :: as, [] => by simp [List.isPrefixOf]
  | a :: as, b :: bs => by
    simp only [List.isPrefixOf, Bool.and_eq_true, beq_iff_eq]
    constructor
    · rintro ⟨rfl, h⟩
      rcases (isPrefixOf_iff_append as bs).mp h with ⟨q, rfl⟩
      exact ⟨q, rfl⟩
    · rintro ⟨q, hq⟩
      injection hq with h1 h2
      subst h1
      exact ⟨rfl, (isPrefixOf_iff_append as bs).mpr ⟨q, h2⟩⟩

/-- `strIncludes s sub` holds exactly when `sub` occurs contiguously in `s`. -/
theorem strIncludes_iff :
    ∀ s sub : List Char, strIncludes s sub = true ↔ ∃ p q, s = p ++ sub ++ q
  | [], sub => by
    simp only [strIncludes, List.isEmpty_iff]
    constructor
    · rintro rfl
      exact ⟨[], [], rfl⟩
    · rintro ⟨p, q, hq⟩
      rcases List.append_eq_nil.mp (List.append_eq_nil.mp hq.symm).1 with ⟨_, h2⟩
      exact h2
  | c :: tl, sub => by
    simp only [strIncludes, Bool.or_eq_true]
    constructor
    · rintro (h | h)
      · rcases (isPrefixOf_iff_append sub (c :: tl)).mp h with ⟨q, hq⟩
        exact ⟨[], q, by simp [hq]⟩
      · rcases (strIncludes_iff tl sub).mp h with ⟨p, q, hq⟩
        exact ⟨c :: p, q, by simp [hq]⟩
    · rintro ⟨p, q, hq⟩
      cases p with
      | nil =>
        left
        exact (isPrefixOf_iff_append sub (c :: tl)).mpr ⟨q, by simpa using hq⟩
      | cons x xs =>
        right
        injection hq with h1 h2
        exact (strIncludes_iff tl sub).mpr ⟨xs, q, h2⟩

/-- The bank-filter predicate, characterized: some payment method's bank name
(when present) or rail type contains the lowercased query contiguously. -/
theorem matchesBank_iff {q : List Char} {offer : PriceData} :
    matchesBank q offer = true ↔ ∃ m ∈ offer.paymentMethods,
      (∃ b, m.payBank = some b ∧ ∃ x y, toLowerStr b = x ++ toLowerStr q ++ y) ∨
      (∃ x y, toLowerStr m.payType = x ++ toLowerStr q ++ y) := by
  unfold matchesBank
  rw [List.any_eq_true]
  constructor
  · rintro ⟨m, hm, hmatch⟩
    refine ⟨m, hm, ?_⟩
    rcases Bool.or_eq_true _ _ |>.mp hmatch with h | h
    · rcases hb : m.payBank with _ | b
      · rw [hb] at h
        exact absurd h (by simp)
      · rw [hb] at h
        exact Or.inl ⟨b, rfl, (strIncludes_iff _ _).mp h⟩
    · exact Or.inr ((strIncludes_iff _ _).mp h)
  · rintro ⟨m, hm, h | h⟩
    · rcases h with ⟨b, hb, hocc⟩
      refine ⟨m, hm, ?_⟩
      rw [Bool.or_eq_true]
      left
      rw [hb]
      exact (strIncludes_iff _ _).mpr hocc
    · refine ⟨m, hm, ?_⟩
      rw [Bool.or_eq_true]
      right
      exact (strIncludes_iff _ _).mpr h

/-- **C7** (bank/rail filter): with no query the catalog passes through
unchanged; a supplied non-empty query keeps exactly the offers with at least
one payment method whose `payBank` or `payType` contains the query
case-insensitively (lowercasing both sides), fails with the
`NoMatchingOffers`-style error carrying the query when nothing matches, and
`calculateBestTradingRoute` propagates that error. -/
theorem claimC7_bank_filter {offers : List PriceData} {t : ℚ} {maxOffers : ℕ}
    {q : List Char} (hq : q ≠ []) :
    applyBankFilter offers none = Except.ok offers ∧
    (offers.filter (matchesBank q) ≠ [] →
      applyBankFilter offers (some q) = Except.ok (offers.filter (matchesBank q))) ∧
    (offers.filter (matchesBank q) = [] →
      applyBankFilter offers (some q) = Except.error (CalcError.noOffersForBank q)) ∧
    (∀ o, o ∈ offers.filter (matchesBank q) ↔ o ∈ offers ∧ ∃ m ∈ o.paymentMethods,
      (∃ b, m.payBank = some b ∧ ∃ x y, toLowerStr b = x ++ toLowerStr q ++ y) ∨
      (∃ x y, toLowerStr m.payType = x ++ toLowerStr q ++ y)) ∧
    (offers ≠ [] → offers.filter (matchesBank q) = [] →
      calculateBestTradingRoute offers t maxOffers (some q) =
        Except.error (CalcError.noOffersForBank q)) := by
  refine ⟨rfl, ?_, ?_, ?_, ?_⟩
  · intro hne
    simp only [applyBankFilter]
    rw [if_neg hq, if_neg hne]
  · intro hnil
    simp only [applyBankFilter]
    rw [if_neg hq, if_pos hnil]
  · intro o
    rw [List.mem_filter]
    exact and_congr_right fun _ => matchesBank_iff
  · intro hne hnil
    unfold calculateBestTradingRoute
    rw [if_neg hne]
    have hfil : applyBankFilter offers (some q) =
        Except.error (CalcError.noOffersForBank q) := by
      simp only [applyBankFilter]
      rw [if_neg hq, if_pos hnil]
    rw [hfil]

/-- Witness for C7: a non-empty query against a one-offer catalog whose only
payment method's `payType` is `"Bank"`, matched case-insensitively by `"ban"`. -/
theorem claimC7_witness :
    (['b', 'a', 'n'] : List Char) ≠ [] ∧
    applyBankFilter [wBankOffer] none = Except.ok [wBankOffer] ∧
    ([wBankOffer].filter (matchesBank ['b', 'a', 'n']) ≠ [] →
      applyBankFilter [wBankOffer] (some ['b', 'a', 'n']) =
        Except.ok ([wBankOffer].filter (matchesBank ['b', 'a', 'n']))) := by
  have h := @claimC7_bank_filter [wBankOffer] 1 5 ['b', 'a', 'n'] (by simp)
  exact ⟨by simp, h.1, h.2.1⟩

/-! ## Lexicographic string order lemmas -/

theorem strLt_cons_iff {a b : Char} {as bs : List Char} :
    strLt (a :: as) (b :: bs) = true ↔ a < b ∨ (a = b ∧ strLt as bs = true) := by
  show (if a < b then true else if b < a then false else strLt as bs) = true ↔ _
  by_cases h1 : a < b
  · simp [h1]
  · rw [if_neg h1]
    by_cases h2 : b < a
    · rw [if_pos h2]
      simp only [Bool.false_eq_true, false_iff]
      rintro (hlt | ⟨heq, _⟩)
      · exact h1 hlt
      · rw [heq] at h2
        exact lt_irrefl b h2
    · rw [if_neg h2]
      have heq : a = b := le_antisymm (not_lt.mp h2) (not_lt.mp h1)
      simp [heq, h1]

theorem strLt_irrefl : ∀ a : List Char, strLt a a = false
  | [] => rfl
  | c :: tl => by
    show (if c < c then true else if c < c then false else strLt tl tl) = false
    rw [if_neg (lt_irrefl c), if_neg (lt_irrefl c)]
    exact strLt_irrefl tl

theorem strLt_trans : ∀ a b c : List Char,
    strLt a b = true → strLt b c = true → strLt a c = true
  | _, b, [], _, hbc => by
    cases b <;> exact absurd hbc (by simp [strLt])
  | [], _, _ :: _, _, _ => by simp [strLt]
  | x :: xs, b, z :: zs, hab, hbc => by
    cases b with
    | nil => exact absurd hab (by simp [strLt])
    | cons y ys =>
      rw [strLt_cons_iff] at hab hbc ⊢
      rcases hab with h1 | ⟨rfl, h1⟩
      · rcases hbc with h2 | ⟨rfl, h2⟩
        · exact Or.inl (lt_trans h1 h2)
        · exact Or.inl h1
      · rcases hbc with h2 | ⟨rfl, h2⟩
        · exact Or.inl h2
        · exact Or.inr ⟨rfl, strLt_trans xs ys zs h1 h2⟩

theorem strLt_total : ∀ a b : List Char, a ≠ b → strLt a b = true ∨ strLt b a = true
  | [], [], h => absurd rfl h
  | [], _ :: _, _ => Or.inl (by simp [strLt])
  | _ :: _, [], _ => Or.inr (by simp [strLt])
  | x :: xs, y :: ys, h => by
    rcases lt_trichotomy x y with hlt | heq | hgt
    · exact Or.inl (strLt_cons_iff.mpr (Or.inl hlt))
    · subst heq
      have hne : xs ≠ ys := fun hh => h (by rw [hh])
      rcases strLt_total xs ys hne with h1 | h1
      · exact Or.inl (strLt_cons_iff.mpr (Or.inr ⟨rfl, h1⟩))
      · exact Or.inr (strLt_cons_iff.mpr (Or.inr ⟨rfl, h1⟩))
    · exact Or.inr (strLt_cons_iff.mpr (Or.inl hgt))

theorem strLt_asymm {a b : List Char} (h : strLt a b = true) : strLt b a = false := by
  by_contra hb
  rw [Bool.not_eq_false] at hb
  have hc := strLt_trans a b a h hb
  rw [strLt_irrefl] at hc
  exact absurd hc (by simp)

theorem strLt_negtrans {a b c : List Char} (hba : strLt b a = false)
    (hcb : strLt c b = false) : strLt c a = false := by
  by_contra hca
  rw [Bool.not_eq_false] at hca
  by_cases hab : a = b
  · subst hab
    rw [hca] at hcb
    exact absurd hcb (by simp)
  · rcases strLt_total a b hab with h | h
    · have hc := strLt_trans c a b hca h
      rw [hc] at hcb
      exact absurd hcb (by simp)
    · rw [h] at hba
      exact absurd hba (by simp)

/-! ## Bank collection membership -/

theorem mem_methodBanks {m : PaymentMethod} {b : List Char} :
    b ∈ methodBanks m ↔ (m.payBank = some b ∧ b ≠ []) ∨ (m.payType = b ∧ b ≠ []) := by
  unfold methodBanks
  rcases hb : m.payBank with _ | bank
  · by_cases hp : m.payType = []
    · simp [hp]
    · rw [List.nil_append, if_neg hp]
      simp only [List.mem_singleton]
      constructor
      · rintro rfl
        exact Or.inr ⟨rfl, hp⟩
      · rintro (⟨hc, _⟩ | ⟨hc, _⟩)
        · exact absurd hc (by simp)
        · exact hc.symm
  · show (b ∈ (if bank = [] then [] else [bank]) ++
        if m.payType = [] then [] else [m.payType]) ↔
        some bank = some b ∧ b ≠ [] ∨ m.payType = b ∧ b ≠ []
    by_cases hbk : bank = []
    · by_cases hp : m.payType = []
      · rw [if_pos hbk, if_pos hp, List.append_nil]
        simp only [List.not_mem_nil, false_iff]
        rintro (⟨hc, hne⟩ | ⟨hc, hne⟩)
        · injection hc with hc
          exact hne (by rw [← hc, hbk])
        · exact hne (by rw [← hc, hp])
      · rw [if_pos hbk, if_neg hp, List.nil_append]
        simp only [List.mem_singleton]
        constructor
        · rintro rfl
          exact Or.inr ⟨rfl, hp⟩
        · rintro (⟨hc, hne⟩ | ⟨hc, _⟩)
          · injection hc with hc
            exact absurd (by rw [← hc, hbk]) hne
          · exact hc.symm
    · by_cases hp : m.payType = []
      · rw [if_neg hbk, if_pos hp, List.append_nil]
        simp only [List.mem_singleton]
        constructor
        · rintro rfl
          exact Or.inl ⟨rfl, hbk⟩
        · rintro (⟨hc, _⟩ | ⟨hc, hne⟩)
          · injection hc with hc
            exact hc.symm
          · exact absurd (by rw [← hc, hp]) hne
      · rw [if_neg hbk, if_neg hp, List.singleton_append]
        simp only [List.mem_cons, List.mem_singleton]
        constructor
        · rintro (rfl | rfl | h)
          · exact Or.inl ⟨rfl, hbk⟩
          · exact Or.inr ⟨rfl, hp⟩
          · exact absurd h (List.not_mem_nil b)
        · rintro (⟨hc, _⟩ | ⟨hc, _⟩)
          · injection hc with hc
            exact Or.inl hc.symm
          · exact Or.inr (Or.inl hc.symm)

theorem mem_collectBanksMethods : ∀ (ms : List PaymentMethod) (b : List Char),
    b ∈ collectBanksMethods ms ↔ ∃ m ∈ ms, b ∈ methodBanks m
  | [], b => by simp [collectBanksMethods]
  | m :: rest, b => by
    simp only [collectBanksMethods, List.mem_append, List.mem_cons]
    rw [mem_collectBanksMethods rest b]
    constructor
    · rintro (h | ⟨m2, hm2, hb⟩)
      · exact ⟨m, Or.inl rfl, h⟩
      · exact ⟨m2, Or.inr hm2, hb⟩
    · rintro ⟨m2, rfl | hm2, hb⟩
      · exact Or.inl hb
      · exact Or.inr ⟨m2, hm2, hb⟩

theorem mem_collectBanks : ∀ (offers : List PriceData) (b : List Char),
    b ∈ collectBanks offers ↔ ∃ o ∈ offers, b ∈ collectBanksMethods o.paymentMethods
  | [], b => by simp [collectBanks]
  | o :: rest, b => by
    simp only [collectBanks, List.mem_append, List.mem_cons]
    rw [mem_collectBanks rest b]
    constructor
    · rintro (h | ⟨o2, ho2, hb⟩)
      · exact ⟨o, Or.inl rfl, h⟩
      · exact ⟨o2, Or.inr ho2, hb⟩
    · rintro ⟨o2, rfl | ho2, hb⟩
      · exact Or.inl hb
      · exact Or.inr ⟨o2, ho2, hb⟩

/-- **C8 (amended)**: `getAvailableBanks` returns a strictly lexicographically
sorted, duplicate-free list; a string appears in it exactly when some payment
method of some offer has it as its non-empty bank name **or** as its non-empty
rail type (a method with both contributes *both*, not "bank name else rail
type"); an empty catalog yields the empty list, and the function is total. -/
theorem claimC8_rail_lister (offers : List PriceData) :
    ((getAvailableBanks offers).Pairwise fun a b => strLt a b = true) ∧
    (getAvailableBanks offers).Nodup ∧
    getAvailableBanks ([] : List PriceData) = [] ∧
    ∀ b, b ∈ getAvailableBanks offers ↔ ∃ o ∈ offers, ∃ m ∈ o.paymentMethods,
      ((m.payBank = some b ∧ b ≠ []) ∨ (m.payType = b ∧ b ≠ [])) := by
  have hnodup : (getAvailableBanks offers).Nodup :=
    ((perm_sortBy strLt (collectBanks offers).dedup).nodup_iff).mpr
      (List.nodup_dedup _)
  have hpair0 : (getAvailableBanks offers).Pairwise fun a b => strLt b a = false :=
    pairwise_sortBy (fun a _ b _ h => strLt_asymm h)
      (fun _ _ b _ c _ hba hcb => strLt_negtrans hba hcb)
  refine ⟨?_, hnodup, rfl, ?_⟩
  · have hand := hpair0.and hnodup
    refine hand.imp ?_
    rintro a b ⟨hfalse, hne⟩
    rcases strLt_total a b hne with h | h
    · exact h
    · rw [h] at hfalse
      exact absurd hfalse (by simp)
  · intro b
    unfold getAvailableBanks
    rw [mem_sortBy, List.mem_dedup, mem_collectBanks]
    constructor
    · rintro ⟨o, ho, hb⟩
      rcases (mem_collectBanksMethods _ _).mp hb with ⟨m, hm, hmb⟩
      exact ⟨o, ho, m, hm, mem_methodBanks.mp hmb⟩
    · rintro ⟨o, ho, m, hm, hmb⟩
      exact ⟨o, ho, (mem_collectBanksMethods _ _).mpr ⟨m, hm, mem_methodBanks.mpr hmb⟩⟩

/-- **C8 counterexample**: an offer with a single payment method that has both
a bank name (`"Zelle"`) and a rail type (`"Bank"`) contributes *both*
identifiers, whereas the spec's "bank name if present, else rail type" rule
would yield only the bank name. -/
theorem claimC8_counterexample :
    getAvailableBanks [wBankOffer] =
      [['B', 'a', 'n', 'k'], ['Z', 'e', 'l', 'l', 'e']] ∧
    getAvailableBanksSpec [wBankOffer] = [['Z', 'e', 'l', 'l', 'e']] ∧
    getAvailableBanks [wBankOffer] ≠ getAvailableBanksSpec [wBankOffer] := by
  refine ⟨?_, ?_, ?_⟩ <;> decide
